import Mathlib

/-!
Shallow embedding of the synchronization and storage engine of the
`messages` repository (src/db.go, src/internal/messages/messages.go,
src/config.go), together with proofs about the claims of the
specification.

Modelling conventions:
* SQLite tables are lists of rows in insertion order; `INSERT OR REPLACE`
  deletes the conflicting row and appends the new one, `INSERT OR IGNORE`
  skips a row whose primary key is already present (before any foreign-key
  check, which SQLite only performs for rows that are actually inserted).
  `PRAGMA foreign_keys = ON` is executed by `OpenDB`, so the
  `conversation_uid` foreign key of the `messages` table is enforced:
  inserting a message whose conversation does not exist fails, and `OR
  IGNORE` does not suppress foreign-key failures.
* `time.Time` values are persisted via `.Unix()` and reconstructed with
  `time.Unix(ts, 0)`; timestamps are therefore modelled as `Int` epoch
  seconds, the resolution at which the store operates.
* The participant list is serialized with `encoding/json` (`json.Marshal`
  on a `[]string`) into the `participant_uids` text column, which the
  `LIKE` query of `GetConversationsForContact` inspects; the codec is
  modelled concretely below.
-/

/-! ### JSON codec for a list of strings (encoding/json on []string) -/

/-- Lowercase hexadecimal digit, as emitted by `encoding/json`. -/
def hexDigit (n : Nat) : Char :=
  if n < 10 then Char.ofNat (48 + n) else Char.ofNat (87 + n)

/-- One character of a JSON string literal as `json.Marshal` emits it:
`"` and `\` are backslash-escaped, newline / carriage return / tab use the
short escapes, all other control characters as well as `<`, `>`, `&`
(HTML escaping is on by default) and U+2028/U+2029 use `\uXXXX`. -/
def escapeChar (c : Char) : List Char :=
  if c = '"' then [ '\\', '"' ]
  else if c = '\\' then [ '\\', '\\' ]
  else if c = '\n' then [ '\\', 'n' ]
  else if c = '\r' then [ '\\', 'r' ]
  else if c = '\t' then [ '\\', 't' ]
  else if c.toNat < 32 ∨ c = '<' ∨ c = '>' ∨ c = '&' ∨ c.toNat = 8232 ∨ c.toNat = 8233 then
    [ '\\', 'u', hexDigit (c.toNat / 4096 % 16), hexDigit (c.toNat / 256 % 16),
      hexDigit (c.toNat / 16 % 16), hexDigit (c.toNat % 16) ]
  else [c]

/-- Escape a whole string body. -/
def escapeList : List Char → List Char
  | [] => []
  | c :: cs => escapeChar c ++ escapeList cs

/-- A JSON string literal. -/
def encodeStringChars (s : String) : List Char :=
  '"' :: escapeList s.data ++ [ '"' ]

/-- Comma-separated JSON string literals. -/
def encodeItems : List String → List Char
  | [] => []
  | [s] => encodeStringChars s
  | s :: rest => encodeStringChars s ++ ',' :: encodeItems rest

/-- `json.Marshal` of a `[]string` (the empty slice encodes as `[]`). -/
def encodeStrList (l : List String) : String :=
  String.mk ('[' :: encodeItems l ++ [ ']' ])

/-- Value of one hexadecimal digit (either case), as `json.Unmarshal`
accepts. -/
def parseHexDigit (c : Char) : Option Nat :=
  if 48 ≤ c.toNat ∧ c.toNat ≤ 57 then some (c.toNat - 48)
  else if 97 ≤ c.toNat ∧ c.toNat ≤ 102 then some (c.toNat - 87)
  else if 65 ≤ c.toNat ∧ c.toNat ≤ 70 then some (c.toNat - 55)
  else none

/-- Parser mode for the JSON string-array decoder: a character-driven
state machine mirroring `json.Unmarshal` into a `[]string` on the token
stream `json.Marshal` produces. -/
inductive PMode where
  | expectItemOrEnd : PMode
  | expectItem : PMode
  | inStr : List Char → PMode
  | esc : List Char → PMode
  | uni : List Char → List Nat → PMode
  | afterStr : PMode
  | done : PMode
  | fail : PMode

deriving DecidableEq

/-- Full parser state: accumulated items (reversed) and current mode. -/
structure PState where
  items : List String
  mode : PMode

deriving DecidableEq

deriving instance DecidableEq for Except

/-- One step of the decoder on one input character. -/
def stepChar (st : PState) (c : Char) : PState :=
  match st.mode with
  | .expectItemOrEnd =>
      if c = '"' then { st with mode := .inStr [] }
      else if c = ']' then { st with mode := .done }
      else { st with mode := .fail }
  | .expectItem =>
      if c = '"' then { st with mode := .inStr [] }
      else { st with mode := .fail }
  | .inStr acc =>
      if c = '"' then { items := String.mk acc.reverse :: st.items, mode := .afterStr }
      else if c = '\\' then { st with mode := .esc acc }
      else if c.toNat < 32 then { st with mode := .fail }
      else { st with mode := .inStr (c :: acc) }
  | .esc acc =>
      if c = '"' then { st with mode := .inStr ( '"' :: acc) }
      else if c = '\\' then { st with mode := .inStr ( '\\' :: acc) }
      else if c = '/' then { st with mode := .inStr ( '/' :: acc) }
      else if c = 'n' then { st with mode := .inStr ( '\n' :: acc) }
      else if c = 'r' then { st with mode := .inStr ( '\r' :: acc) }
      else if c = 't' then { st with mode := .inStr ( '\t' :: acc) }
      else if c = 'b' then { st with mode := .inStr (Char.ofNat 8 :: acc) }
      else if c = 'f' then { st with mode := .inStr (Char.ofNat 12 :: acc) }
      else if c = 'u' then { st with mode := .uni acc [] }
      else { st with mode := .fail }
  | .uni acc digits =>
      match parseHexDigit c with
      | none => { st with mode := .fail }
      | some d =>
          if digits.length = 3 then
            -- fourth digit: assemble the code point.  Lone surrogate
            -- halves decode to U+FFFD (Go replaces ill-formed surrogate
            -- escapes with the replacement character); the encoder never
            -- emits surrogate escapes, so pairing is not modelled.
            if 55296 ≤ (digits ++ [d]).foldl (fun a x => a * 16 + x) 0 ∧
                (digits ++ [d]).foldl (fun a x => a * 16 + x) 0 < 57344 then
              { st with mode := .inStr (Char.ofNat 65533 :: acc) }
            else
              { st with mode := .inStr (Char.ofNat ((digits ++ [d]).foldl (fun a x => a * 16 + x) 0) :: acc) }
          else { st with mode := .uni acc (digits ++ [d]) }
  | .afterStr =>
      if c = ',' then { st with mode := .expectItem }
      else if c = ']' then { st with mode := .done }
      else { st with mode := .fail }
  | .done => { st with mode := .fail }
  | .fail => st

/-- Run the decoder over the characters following the opening bracket. -/
def runParse (l : List Char) : PState :=
  l.foldl stepChar { items := [], mode := .expectItemOrEnd }

/-- `json.Unmarshal` of a text blob into a `[]string`: requires a full,
well-formed `["…", …]` array and returns its elements. -/
def decodeStrList (s : String) : Option (List String) :=
  match s.data with
  | '[' :: rest =>
      match runParse rest with
      | ⟨items, .done⟩ => some items.reverse
      | _ => none
  | _ => none

/-! ### SQLite LIKE (as used by GetConversationsForContact)

`GetConversationsForContact` runs `participant_uids LIKE ?` with the
pattern `"%" + contactUID + "%"`.  SQLite's default `LIKE` is
case-insensitive for the ASCII letters and treats `%` (any sequence of
characters) and `_` (any one character) in the pattern as wildcards. -/

/-- ASCII lower-casing, SQLite's `sqlite3UpperToLower` folding. -/
def asciiLower (c : Char) : Char :=
  if 65 ≤ c.toNat ∧ c.toNat ≤ 90 then Char.ofNat (c.toNat + 32) else c

/-- Character comparison of SQLite `LIKE`: ASCII-case-insensitive. -/
def likeCharEq (p c : Char) : Bool :=
  asciiLower p = asciiLower c

/-- All suffixes of a character list (including itself and `[]`). -/
def suffixes : List Char → List (List Char)
  | [] => [[]]
  | c :: ts => (c :: ts) :: suffixes ts

/-- SQLite `LIKE` pattern matching: first argument the pattern, second
the text.  `%` matches any sequence (equivalently: the rest of the
pattern matches some suffix of the text), `_` any single character, and
any other pattern character matches ASCII-case-insensitively. -/
def sqlLike : List Char → List Char → Bool
  | [], t => t.isEmpty
  | p :: ps, t =>
    if p = '%' then (suffixes t).any (fun s => sqlLike ps s)
    else if p = '_' then
      match t with
      | [] => false
      | _ :: ts => sqlLike ps ts
    else
      match t with
      | [] => false
      | c :: ts => likeCharEq p c && sqlLike ps ts

/-- `text LIKE '%' || pat || '%'`, the query of
`GetConversationsForContact`. -/
def likeContains (text pat : String) : Bool :=
  sqlLike ( '%' :: pat.data ++ [ '%' ]) text.data

/-- Plain (case-sensitive) prefix test on character lists. -/
def isPrefixCh : List Char → List Char → Bool
  | [], _ => true
  | _ :: _, [] => false
  | a :: as, b :: bs => a = b && isPrefixCh as bs

/-- Plain (case-sensitive) substring containment on character lists. -/
def hasSub : List Char → List Char → Bool
  | [], needle => isPrefixCh needle []
  | c :: t, needle => isPrefixCh needle (c :: t) || hasSub t needle

/-- Plain substring containment on strings: what the specification calls
"contains contactUID as a substring". -/
def containsSubstr (hay needle : String) : Bool :=
  hasSub hay.data needle.data

/-! ### Canonical data model (src/internal/messages/messages.go)

`float64` fields of `Attachment` (`FileSize`, `Duration`) are modelled as
`Rat`; `encoding/json` round-trips finite `float64` values exactly, and
no SQL ever inspects the serialized attachment blob, so the message row
below carries the decoded attachment list directly. -/

structure Attachment where
  Typ : String
  SrcURL : String
  FileName : String
  FileSize : Rat
  MimeType : String
  Duration : Rat
  Width : Int
  Height : Int
  IsGif : Bool
  IsSticker : Bool
  IsVoiceNote : Bool

deriving DecidableEq

structure Conversation where
  ID : String
  AccountID : String
  Platform : String
  Title : String
  Typ : String
  ParticipantUIDs : List String
  ParticipantCount : Int
  UnreadCount : Int
  LastActivity : Int
  IsArchived : Bool
  IsMuted : Bool
  IsPinned : Bool

deriving DecidableEq

structure Message where
  ID : String
  ContactUID : String
  Timestamp : Int
  SenderUID : String
  SenderName : String
  ConversationUID : String
  ChatTitle : String
  Text : String
  Platform : String
  PlatformID : String
  IsSent : Bool
  Attachments : List Attachment
  SortKey : String

deriving DecidableEq

/-! ### Persistent store (src/db.go)

A row of the `conversations` table: the participant list is stored as the
JSON text blob produced by `json.Marshal` (`SaveConversations`), decoded
again on read (`GetConversation` / `scanConversations`).  A row of the
`messages` table carries exactly the fields of `Message` (timestamps as
epoch seconds, attachments via an exact codec), so `Message` itself
serves as the row type. -/

structure ConvRow where
  id : String
  account_id : String
  platform : String
  title : String
  typ : String
  participant_uids : String
  participant_count : Int
  unread_count : Int
  last_activity : Int
  is_archived : Bool
  is_muted : Bool
  is_pinned : Bool

deriving DecidableEq

/-- The two tables of the store, rows in insertion (rowid) order. -/
structure DBState where
  conversations : List ConvRow
  messages : List Message

deriving DecidableEq

/-- The empty store, as `createTables` leaves a fresh database. -/
def dbEmpty : DBState := ⟨[], []⟩

/-- Serialization performed by `SaveConversations` for one row. -/
def convToRow (c : Conversation) : ConvRow :=
  { id := c.ID, account_id := c.AccountID, platform := c.Platform, title := c.Title,
    typ := c.Typ, participant_uids := encodeStrList c.ParticipantUIDs,
    participant_count := c.ParticipantCount, unread_count := c.UnreadCount,
    last_activity := c.LastActivity, is_archived := c.IsArchived,
    is_muted := c.IsMuted, is_pinned := c.IsPinned }

/-- Deserialization performed by `GetConversation` / `scanConversations`:
unmarshalling the participant blob can fail on a malformed row. -/
def rowToConv (r : ConvRow) : Except String Conversation :=
  match decodeStrList r.participant_uids with
  | none => .error ("failed to unmarshal participant UIDs")
  | some l =>
      .ok { ID := r.id, AccountID := r.account_id, Platform := r.platform, Title := r.title,
            Typ := r.typ, ParticipantUIDs := l, ParticipantCount := r.participant_count,
            UnreadCount := r.unread_count, LastActivity := r.last_activity,
            IsArchived := r.is_archived, IsMuted := r.is_muted, IsPinned := r.is_pinned }

/-- `INSERT OR REPLACE INTO conversations`: the conflicting row (same
primary key) is deleted and the new row inserted. -/
def upsertConvRow (table : List ConvRow) (r : ConvRow) : List ConvRow :=
  table.filter (fun x => x.id ≠ r.id) ++ [r]

/-- `SaveConversations`: one `INSERT OR REPLACE` per list element inside
one transaction.  Marshalling a `[]string` cannot fail, and the
`conversations` table has no foreign key, so the batch always commits;
the error component is `none` on every input (mirroring that the only
failure paths in the Go code are infrastructure errors of the driver). -/
def saveConversations (s : DBState) (conversations : List Conversation) :
    Option String × DBState :=
  (none, { s with conversations :=
      conversations.foldl (fun t c => upsertConvRow t (convToRow c)) s.conversations })

/-- Is a message id already present in the `messages` table? -/
def msgIdIn (table : List Message) (i : String) : Bool :=
  table.any (fun m => m.ID = i)

/-- Does a conversation row with this id exist? -/
def convIdIn (table : List ConvRow) (i : String) : Bool :=
  table.any (fun r => r.id = i)

/-- The per-row loop of `SaveMessages`: `INSERT OR IGNORE` skips a row
whose id is already present (no foreign-key check is made for a skipped
row); otherwise the enforced `conversation_uid` foreign key must hold,
else the statement fails and the whole transaction is rolled back. -/
def saveMessagesLoop (ctable : List ConvRow) : List Message → List Message →
    Except String (List Message)
  | table, [] => .ok table
  | table, m :: ms =>
      if msgIdIn table m.ID then saveMessagesLoop ctable table ms
      else if convIdIn ctable m.ConversationUID then saveMessagesLoop ctable (table ++ [m]) ms
      else .error ("failed to insert message " ++ m.ID)

/-- `SaveMessages`: the whole batch in one transaction; on any row
failure the transaction is rolled back (`defer tx.Rollback()`), leaving
the table unchanged. -/
def saveMessages (s : DBState) (messages : List Message) : Option String × DBState :=
  match saveMessagesLoop s.conversations s.messages messages with
  | .ok t => (none, { s with messages := t })
  | .error e => (some e, s)

/-- `SELECT MAX(...)`: SQL aggregate maximum (NULL on no rows). -/
def maxList : List Int → Option Int
  | [] => none
  | x :: xs =>
      match maxList xs with
      | none => some x
      | some y => some (max x y)

/-- The timestamps of a contact's stored messages
(`WHERE contact_uid = ?`). -/
def contactTimestamps (s : DBState) (contactUID : String) : List Int :=
  (s.messages.filter (fun m => m.ContactUID = contactUID)).map (fun m => m.Timestamp)

/-- `GetLastContactDate`: `SELECT MAX(timestamp) FROM messages WHERE
contact_uid = ?`.  With no rows the aggregate returns one NULL row;
`Scan` then fails leaving `timestamp` at `0`, and the Go code's
`err == sql.ErrNoRows || timestamp == 0` check returns `nil, nil` — the
same branch also fires when the maximum is genuinely `0`. -/
def getLastContactDate (s : DBState) (contactUID : String) : Option Int :=
  match maxList (contactTimestamps s contactUID) with
  | none => none
  | some t => if t = 0 then none else some t

/-- `GetConversation`: point lookup on the primary key; `sql.ErrNoRows`
becomes `nil, nil` (no error), a found row is deserialized. -/
def getConversation (s : DBState) (conversationUID : String) :
    Except String (Option Conversation) :=
  match s.conversations.find? (fun r => r.id = conversationUID) with
  | none => .ok none
  | some r => (rowToConv r).map some

/-- Insert into a list sorted by descending timestamp, keeping earlier
rows first among equal timestamps. -/
def insertTsDesc (m : Message) : List Message → List Message
  | [] => [m]
  | x :: xs => if m.Timestamp ≤ x.Timestamp then x :: insertTsDesc m xs else m :: x :: xs

/-- `ORDER BY timestamp DESC` over the selected rows. -/
def sortTsDesc (l : List Message) : List Message :=
  l.foldl (fun acc m => insertTsDesc m acc) []

/-- `GetMessagesForConversation`: rows with the given conversation id,
newest first. -/
def getMessagesForConversation (s : DBState) (conversationUID : String) : List Message :=
  sortTsDesc (s.messages.filter (fun m => m.ConversationUID = conversationUID))

/-- `GetMessagesForContact`: rows with the given contact id, newest
first. -/
def getMessagesForContact (s : DBState) (contactUID : String) : List Message :=
  sortTsDesc (s.messages.filter (fun m => m.ContactUID = contactUID))

/-- `scanConversations`: deserialize each selected row; the first
malformed row aborts with an error. -/
def scanConversations : List ConvRow → Except String (List Conversation)
  | [] => .ok []
  | r :: rs =>
      match rowToConv r with
      | .error e => .error e
      | .ok c => (scanConversations rs).map (fun cs => c :: cs)

/-- `GetConversationsForContact`: `WHERE participant_uids LIKE
'%' || contactUID || '%'` (SELECT DISTINCT is a no-op as `id` is part of
every row and primary-key unique). -/
def getConversationsForContact (s : DBState) (contactUID : String) :
    Except String (List Conversation) :=
  scanConversations (s.conversations.filter (fun r => likeContains r.participant_uids contactUID))

/-- `ListAllConversations`: all rows, most recent activity first
(insertion order among ties). -/
def listAllConversations (s : DBState) : Except String (List Conversation) :=
  scanConversations ((s.conversations.mergeSort
      (fun a b => b.last_activity ≤ a.last_activity)))

/-! ### Sync orchestrator (src/internal/messages/messages.go, src/config.go) -/

structure AccountConfig where
  Provider : String
  Read : Bool
  Write : Bool

deriving DecidableEq

/-- `MessageManager.Sync`: check read permission, obtain the provider's
full fetch (its outcome is the `providerResult` argument), then write
conversations and messages in that order.  Returns the error (if any)
and the resulting store state. -/
def managerSync (acct : AccountConfig) (providerResult : Except String (List Conversation × List Message)) (s : DBState) : Option String × DBState :=
  if !acct.Read then (some ("account does not have read permission"), s)
  else
    match providerResult with
    | .error e => (some e, s)
    | .ok (conversations, messages) =>
        match saveConversations s conversations with
        | (some e, s1) => (some e, s1)
        | (none, s1) => saveMessages s1 messages

/-- `MessageManager.Send`: check write permission, then delegate to the
provider (modelled as a function from chat id and text to its outcome);
no store access happens on this path. -/
def managerSend (acct : AccountConfig) (providerSend : String → String → Except String Unit) (chatID text : String) : Except String Unit :=
  if !acct.Write then .error ("account does not have write permission")
  else providerSend chatID text

/-- Concrete sample message (no attachments). -/
def wMsgA : Message :=
  { ID := "m1"
    ContactUID := "u1"
    Timestamp := 1
    SenderUID := "u1"
    SenderName := "A"
    ConversationUID := "c1"
    ChatTitle := "t"
    Text := "x"
    Platform := "p"
    PlatformID := "m1"
    IsSent := false
    Attachments := []
    SortKey := "1" }

/-- Concrete sample message sharing `wMsgA`'s id with different content. -/
def wMsgB : Message :=
  { ID := "m1"
    ContactUID := "u2"
    Timestamp := 2
    SenderUID := "u2"
    SenderName := "B"
    ConversationUID := "c1"
    ChatTitle := "t"
    Text := "y"
    Platform := "p"
    PlatformID := "m1b"
    IsSent := true
    Attachments := []
    SortKey := "2" }

/-- Account without permissions. -/
def wAcctNone : AccountConfig := { Provider := "beeper", Read := false, Write := false }

/-- Account with full permissions. -/
def wAcctRW : AccountConfig := { Provider := "beeper", Read := true, Write := true }

/-- Concrete sample conversation. -/
def wConv : Conversation :=
  { ID := "c1"
    AccountID := "a1"
    Platform := "beeper"
    Title := "Chat 1"
    Typ := "single"
    ParticipantUIDs := ["u1", "u2"]
    ParticipantCount := 2
    UnreadCount := 0
    LastActivity := 100
    IsArchived := false
    IsMuted := false
    IsPinned := false }

/-- Concrete orphan message: no conversation row matches its
`conversation_uid`. -/
def wOrphan : Message :=
  { ID := "m9"
    ContactUID := "u1"
    Timestamp := 9
    SenderUID := "u1"
    SenderName := "A"
    ConversationUID := "nope"
    ChatTitle := "t"
    Text := "z"
    Platform := "p"
    PlatformID := "m9"
    IsSent := false
    Attachments := []
    SortKey := "9" }

/-- A store holding `wConv` and `wMsgA`, built through the save path. -/
def wState : DBState := (saveMessages (saveConversations dbEmpty [wConv]).2 [wMsgA]).2

/-- Overwriting conversation: same id as `wConv`, every field different. -/
def wConv2 : Conversation :=
  { ID := "c1"
    AccountID := "a2"
    Platform := "matrix"
    Title := "Renamed"
    Typ := "group"
    ParticipantUIDs := ["u9"]
    ParticipantCount := 1
    UnreadCount := 5
    LastActivity := 200
    IsArchived := true
    IsMuted := true
    IsPinned := true }

/-- Sample attachment exercising every field. -/
def wAtt : Attachment :=
  { Typ := "image"
    SrcURL := "https://cdn.example/y.png"
    FileName := "y.png"
    FileSize := 2049 / 2
    MimeType := "image/png"
    Duration := 3 / 10
    Width := 100
    Height := 80
    IsGif := false
    IsSticker := true
    IsVoiceNote := false }

/-- Sample message carrying an attachment, belonging to `wConv`. -/
def wMsgAtt : Message :=
  { ID := "m7"
    ContactUID := "u2"
    Timestamp := 7
    SenderUID := "u2"
    SenderName := "B"
    ConversationUID := "c1"
    ChatTitle := "Chat 1"
    Text := "photo"
    Platform := "beeper"
    PlatformID := "m7"
    IsSent := true
    Attachments := [wAtt]
    SortKey := "7" }

/-- Conversation whose only participant is the lowercase `alice`. -/
def wConvAlice : Conversation :=
  { ID := "c9"
    AccountID := "a1"
    Platform := "beeper"
    Title := "Alice"
    Typ := "single"
    ParticipantUIDs := ["alice"]
    ParticipantCount := 1
    UnreadCount := 0
    LastActivity := 50
    IsArchived := false
    IsMuted := false
    IsPinned := false }

/-! ### Theorems -/

example : decodeStrList (encodeStrList []) = some [] := by decide

example : decodeStrList (encodeStrList ["u1"]) = some ["u1"] := by decide

example : decodeStrList (encodeStrList ["u1", "u2"]) = some ["u1", "u2"] := by decide

example : decodeStrList (encodeStrList ["a\"b\\c", "x<y"]) = some ["a\"b\\c", "x<y"] := by decide

/-! ### Round-trip of the participant-list codec -/

theorem parseHexDigit_hexDigit : ∀ d, d < 16 → parseHexDigit (hexDigit d) = some d := by
  decide

theorem foldl_uescape (items : List String) (acc : List Char) (c : Char)
    (l : List Char) (hlt : c.toNat < 55296) :
    List.foldl stepChar ⟨items, .inStr acc⟩
      ( '\\' :: 'u' :: hexDigit (c.toNat / 4096 % 16) :: hexDigit (c.toNat / 256 % 16)
        :: hexDigit (c.toNat / 16 % 16) :: hexDigit (c.toNat % 16) :: l) =
    List.foldl stepChar ⟨items, .inStr (c :: acc)⟩ l := by
  have e1 := parseHexDigit_hexDigit (c.toNat / 4096 % 16) (Nat.mod_lt _ (by norm_num))
  have e2 := parseHexDigit_hexDigit (c.toNat / 256 % 16) (Nat.mod_lt _ (by norm_num))
  have e3 := parseHexDigit_hexDigit (c.toNat / 16 % 16) (Nat.mod_lt _ (by norm_num))
  have e4 := parseHexDigit_hexDigit (c.toNat % 16) (Nat.mod_lt _ (by norm_num))
  have s1 : stepChar ⟨items, .inStr acc⟩ '\\' = ⟨items, .esc acc⟩ := rfl
  have s2 : stepChar ⟨items, .esc acc⟩ 'u' = ⟨items, .uni acc []⟩ := rfl
  have s3 : stepChar ⟨items, .uni acc []⟩ (hexDigit (c.toNat / 4096 % 16)) =
      ⟨items, .uni acc [c.toNat / 4096 % 16]⟩ := by
    simp [stepChar, e1]
  have s4 : stepChar ⟨items, .uni acc [c.toNat / 4096 % 16]⟩ (hexDigit (c.toNat / 256 % 16)) =
      ⟨items, .uni acc [c.toNat / 4096 % 16, c.toNat / 256 % 16]⟩ := by
    simp [stepChar, e2]
  have s5 : stepChar ⟨items, .uni acc [c.toNat / 4096 % 16, c.toNat / 256 % 16]⟩
        (hexDigit (c.toNat / 16 % 16)) =
      ⟨items, .uni acc [c.toNat / 4096 % 16, c.toNat / 256 % 16, c.toNat / 16 % 16]⟩ := by
    simp [stepChar, e3]
  have hfold : ([c.toNat / 4096 % 16, c.toNat / 256 % 16, c.toNat / 16 % 16] ++
      [c.toNat % 16]).foldl (fun a x => a * 16 + x) 0 = c.toNat := by
    simp [List.foldl]
    omega
  have hsur : ¬ (55296 ≤ c.toNat ∧ c.toNat < 57344) := by omega
  have harith : ((c.toNat / 4096 % 16 * 16 + c.toNat / 256 % 16) * 16 + c.toNat / 16 % 16) * 16 +
      c.toNat % 16 = c.toNat := by omega
  have s6 : stepChar ⟨items, .uni acc [c.toNat / 4096 % 16, c.toNat / 256 % 16, c.toNat / 16 % 16]⟩
        (hexDigit (c.toNat % 16)) = ⟨items, .inStr (c :: acc)⟩ := by
    simp [stepChar, e4]
    rw [harith, if_neg hsur, Char.ofNat_toNat]
  simp only [List.foldl_cons, s1, s2, s3, s4, s5, s6]

theorem foldl_escapeChar (items : List String) (acc : List Char) (c : Char) (l : List Char) :
    List.foldl stepChar ⟨items, .inStr acc⟩ (escapeChar c ++ l) =
    List.foldl stepChar ⟨items, .inStr (c :: acc)⟩ l := by
  by_cases h1 : c = '"'
  · subst h1; simp [escapeChar, stepChar]
  by_cases h2 : c = '\\'
  · subst h2; simp [escapeChar, stepChar]
  by_cases h3 : c = '\n'
  · subst h3; simp [escapeChar, stepChar]
  by_cases h4 : c = '\r'
  · subst h4; simp [escapeChar, stepChar]
  by_cases h5 : c = '\t'
  · subst h5; simp [escapeChar, stepChar]
  by_cases h6 : c.toNat < 32 ∨ c = '<' ∨ c = '>' ∨ c = '&' ∨ c.toNat = 8232 ∨ c.toNat = 8233
  · have hlt : c.toNat < 55296 := by
      rcases h6 with h | h | h | h | h | h
      · omega
      · subst h; decide
      · subst h; decide
      · subst h; decide
      · omega
      · omega
    rw [escapeChar, if_neg h1, if_neg h2, if_neg h3, if_neg h4, if_neg h5, if_pos h6]
    exact foldl_uescape items acc c l hlt
  · rw [escapeChar, if_neg h1, if_neg h2, if_neg h3, if_neg h4, if_neg h5, if_neg h6]
    have h32 : ¬ c.toNat < 32 := by
      intro h
      exact h6 (Or.inl h)
    simp [stepChar, h1, h2, h32]

theorem foldl_escapeList (cs : List Char) : ∀ items acc l,
    List.foldl stepChar ⟨items, .inStr acc⟩ (escapeList cs ++ l) =
    List.foldl stepChar ⟨items, .inStr (cs.reverse ++ acc)⟩ l := by
  induction cs with
  | nil =>
    intro items acc l
    simp [escapeList]
  | cons c cs ih =>
    intro items acc l
    rw [escapeList, List.append_assoc, foldl_escapeChar, ih]
    simp

theorem stringMk_data (s : String) : String.mk s.data = s := by
  cases s
  rfl

theorem foldl_encodeString (s : String) (items : List String) (m : PMode)
    (hm : m = PMode.expectItemOrEnd ∨ m = PMode.expectItem) (l : List Char) :
    List.foldl stepChar ⟨items, m⟩ (encodeStringChars s ++ l) =
    List.foldl stepChar ⟨s :: items, .afterStr⟩ l := by
  have hstep : stepChar ⟨items, m⟩ '"' = ⟨items, .inStr []⟩ := by
    rcases hm with rfl | rfl <;> rfl
  have hclose : stepChar ⟨items, .inStr (s.data.reverse ++ [])⟩ '"' =
      ⟨s :: items, .afterStr⟩ := by
    simp [stepChar, stringMk_data]
  have hsplit : encodeStringChars s ++ l = '"' :: (escapeList s.data ++ ( '"' :: l)) := by
    simp [encodeStringChars]
  rw [hsplit, List.foldl_cons, hstep, foldl_escapeList, List.foldl_cons, hclose]

theorem foldl_encodeItems (ss : List String) : ∀ items m, ss ≠ [] →
    (m = PMode.expectItemOrEnd ∨ m = PMode.expectItem) →
    List.foldl stepChar ⟨items, m⟩ (encodeItems ss ++ [ ']' ]) =
    ⟨ss.reverse ++ items, PMode.done⟩ := by
  induction ss with
  | nil =>
    intro items m h _
    exact absurd rfl h
  | cons s rest ih =>
    intro items m _ hm
    cases rest with
    | nil =>
      rw [show encodeItems [s] = encodeStringChars s from rfl, foldl_encodeString s items m hm]
      simp [stepChar]
    | cons s2 rest2 =>
      rw [show encodeItems (s :: s2 :: rest2) =
            encodeStringChars s ++ ',' :: encodeItems (s2 :: rest2) from rfl,
        List.append_assoc, foldl_encodeString s items m hm, List.cons_append, List.foldl_cons,
        show stepChar ⟨s :: items, .afterStr⟩ ',' = ⟨s :: items, .expectItem⟩ from rfl,
        ih (s :: items) _ (by simp) (Or.inr rfl)]
      simp

/-- `json.Unmarshal` inverts `json.Marshal` on any `[]string` value. -/
theorem decodeStrList_encodeStrList (l : List String) :
    decodeStrList (encodeStrList l) = some l := by
  cases l with
  | nil => decide
  | cons s rest =>
    have key : runParse (encodeItems (s :: rest) ++ [ ']' ]) =
        ⟨(s :: rest).reverse ++ [], PMode.done⟩ :=
      foldl_encodeItems (s :: rest) [] _ (by simp) (Or.inl rfl)
    rw [show decodeStrList (encodeStrList (s :: rest)) =
        (match runParse (encodeItems (s :: rest) ++ [ ']' ]) with
          | ⟨items, PMode.done⟩ => some items.reverse
          | _ => none) from rfl]
    rw [key]
    simp

example : containsSubstr (encodeStrList ["alice", "bob"]) "lic" = true := by decide

example : containsSubstr (encodeStrList ["alice"]) "ALICE" = false := by decide

example : likeContains (encodeStrList ["alice"]) "ALICE" = true := by decide

example : likeContains (encodeStrList ["alice", "bob"]) "lic" = true := by decide

example : likeContains (encodeStrList ["charlie"]) "bob" = false := by decide

theorem nil_mem_suffixes : ∀ t, [] ∈ suffixes t := by
  intro t
  induction t with
  | nil => simp [suffixes]
  | cons c ts ih => simp [suffixes, ih]

theorem self_mem_suffixes : ∀ t, t ∈ suffixes t := by
  intro t
  cases t with
  | nil => simp [suffixes]
  | cons c ts => simp [suffixes]

theorem sqlLike_pct (ps t : List Char) :
    sqlLike ( '%' :: ps) t = (suffixes t).any (fun s => sqlLike ps s) := rfl

theorem sqlLike_pct_of_suffix (ps s t : List Char) (hmem : s ∈ suffixes t)
    (h : sqlLike ps s = true) : sqlLike ( '%' :: ps) t = true := by
  rw [sqlLike_pct]
  rw [List.any_eq_true]
  exact ⟨s, hmem, h⟩

theorem sqlLike_of_isPrefixCh : ∀ u t, isPrefixCh u t = true →
    sqlLike (u ++ [ '%' ]) t = true := by
  intro u
  induction u with
  | nil =>
    intro t _
    exact sqlLike_pct_of_suffix [] [] t (nil_mem_suffixes t) (by decide)
  | cons a as ih =>
    intro t hpre
    cases t with
    | nil => simp [isPrefixCh] at hpre
    | cons b bs =>
      rw [isPrefixCh] at hpre
      simp only [Bool.and_eq_true, decide_eq_true_eq] at hpre
      obtain ⟨rfl, hpre⟩ := hpre
      rw [List.cons_append, sqlLike]
      by_cases hp : a = '%'
      · rw [if_pos hp]
        have hmem : bs ∈ suffixes (a :: bs) := by
          rw [suffixes]
          exact List.mem_cons_of_mem _ (self_mem_suffixes bs)
        rw [List.any_eq_true]
        exact ⟨bs, hmem, ih bs hpre⟩
      rw [if_neg hp]
      by_cases hu : a = '_'
      · rw [if_pos hu]
        exact ih bs hpre
      · rw [if_neg hu]
        simp [likeCharEq, ih bs hpre]

theorem hasSub_exists_suffix : ∀ hay needle, hasSub hay needle = true →
    ∃ s ∈ suffixes hay, isPrefixCh needle s = true := by
  intro hay
  induction hay with
  | nil =>
    intro needle h
    exact ⟨[], nil_mem_suffixes [], h⟩
  | cons c t ih =>
    intro needle h
    rw [hasSub] at h
    rw [Bool.or_eq_true] at h
    rcases h with h | h
    · exact ⟨c :: t, self_mem_suffixes (c :: t), h⟩
    · obtain ⟨s, hmem, hpre⟩ := ih needle h
      refine ⟨s, ?_, hpre⟩
      rw [suffixes]
      exact List.mem_cons_of_mem _ hmem

/-- Literal substring containment implies a `LIKE %pat%` match: every
conversation whose serialized participant list literally contains the
identifier is matched by the query's pattern. -/
theorem likeContains_of_containsSubstr (hay needle : String)
    (h : containsSubstr hay needle = true) : likeContains hay needle = true := by
  rw [containsSubstr] at h
  rw [likeContains]
  obtain ⟨s, hmem, hpre⟩ := hasSub_exists_suffix hay.data needle.data h
  exact sqlLike_pct_of_suffix (needle.data ++ [ '%' ]) s hay.data hmem
    (sqlLike_of_isPrefixCh needle.data s hpre)

/-! ### Store lemmas -/

theorem msgIdIn_append_right (t : List Message) (m : Message) :
    msgIdIn (t ++ [m]) m.ID = true := by
  simp [msgIdIn]

theorem msgIdIn_append_of (t : List Message) (m : Message) (i : String)
    (h : msgIdIn t i = true) : msgIdIn (t ++ [m]) i = true := by
  simp [msgIdIn] at h ⊢
  exact Or.inl h

theorem saveMessagesLoop_mono (ct : List ConvRow) (ms : List Message) :
    ∀ table t i, saveMessagesLoop ct table ms = .ok t →
    msgIdIn table i = true → msgIdIn t i = true := by
  induction ms with
  | nil =>
    intro table t i hok hin
    rw [saveMessagesLoop] at hok
    cases hok
    exact hin
  | cons m ms ih =>
    intro table t i hok hin
    rw [saveMessagesLoop] at hok
    by_cases h1 : msgIdIn table m.ID = true
    · rw [if_pos h1] at hok
      exact ih table t i hok hin
    · rw [if_neg h1] at hok
      by_cases h2 : convIdIn ct m.ConversationUID = true
      · rw [if_pos h2] at hok
        exact ih (table ++ [m]) t i hok (msgIdIn_append_of table m i hin)
      · rw [if_neg h2] at hok
        cases hok

theorem saveMessagesLoop_all_in (ct : List ConvRow) (ms : List Message) :
    ∀ table t, saveMessagesLoop ct table ms = .ok t →
    ∀ m ∈ ms, msgIdIn t m.ID = true := by
  induction ms with
  | nil =>
    intro table t _ m hm
    cases hm
  | cons m0 ms ih =>
    intro table t hok m hm
    rw [saveMessagesLoop] at hok
    by_cases h1 : msgIdIn table m0.ID = true
    · rw [if_pos h1] at hok
      rcases List.mem_cons.mp hm with rfl | hm
      · exact saveMessagesLoop_mono ct ms table t m.ID hok h1
      · exact ih table t hok m hm
    · rw [if_neg h1] at hok
      by_cases h2 : convIdIn ct m0.ConversationUID = true
      · rw [if_pos h2] at hok
        rcases List.mem_cons.mp hm with rfl | hm
        · exact saveMessagesLoop_mono ct ms (table ++ [m]) t m.ID hok
            (msgIdIn_append_right table m)
        · exact ih (table ++ [m0]) t hok m hm
      · rw [if_neg h2] at hok
        cases hok

theorem saveMessagesLoop_skip_all (ct : List ConvRow) (ms : List Message) :
    ∀ table, (∀ m ∈ ms, msgIdIn table m.ID = true) →
    saveMessagesLoop ct table ms = .ok table := by
  induction ms with
  | nil =>
    intro table _
    rfl
  | cons m0 ms ih =>
    intro table hall
    rw [saveMessagesLoop, if_pos (hall m0 (List.mem_cons_self m0 ms))]
    exact ih table (fun m hm => hall m (List.mem_cons_of_mem m0 hm))

theorem saveConversations_messages (s : DBState) (cs : List Conversation) :
    (saveConversations s cs).2.messages = s.messages := rfl

theorem saveMessages_conversations (s : DBState) (ms : List Message) :
    (saveMessages s ms).2.conversations = s.conversations := by
  rw [saveMessages]
  cases saveMessagesLoop s.conversations s.messages ms <;> rfl

theorem saveMessages_eq_error (s : DBState) (ms : List Message) (e : String)
    (h : saveMessagesLoop s.conversations s.messages ms = .error e) :
    saveMessages s ms = (some e, s) := by
  rw [saveMessages, h]

theorem saveMessages_eq_ok (s : DBState) (ms : List Message) (t : List Message)
    (h : saveMessagesLoop s.conversations s.messages ms = .ok t) :
    saveMessages s ms = (none, { s with messages := t }) := by
  rw [saveMessages, h]

/-- `SaveMessages` is idempotent at the level of the store state. -/
theorem saveMessages_state_idem (s : DBState) (ms : List Message) :
    (saveMessages (saveMessages s ms).2 ms).2 = (saveMessages s ms).2 := by
  cases hloop : saveMessagesLoop s.conversations s.messages ms with
  | error e =>
    rw [saveMessages_eq_error s ms e hloop, saveMessages_eq_error s ms e hloop]
  | ok t =>
    rw [saveMessages_eq_ok s ms t hloop]
    have hloop2 : saveMessagesLoop ({ s with messages := t } : DBState).conversations
        ({ s with messages := t } : DBState).messages ms = .ok t :=
      saveMessagesLoop_skip_all s.conversations ms t
        (saveMessagesLoop_all_in s.conversations ms s.messages t hloop)
    rw [saveMessages_eq_ok { s with messages := t } ms t hloop2]

theorem managerSync_noread (acct : AccountConfig)
    (providerResult : Except String (List Conversation × List Message)) (s : DBState)
    (hread : acct.Read = false) :
    managerSync acct providerResult s = (some ("account does not have read permission"), s) := by
  rw [managerSync.eq_def, hread]
  rfl

theorem managerSync_err (acct : AccountConfig) (e : String) (s : DBState)
    (hread : acct.Read = true) :
    managerSync acct (.error e) s = (some e, s) := by
  rw [managerSync.eq_def, hread]
  rfl

theorem managerSync_ok (acct : AccountConfig) (convs : List Conversation)
    (msgs : List Message) (s : DBState) (hread : acct.Read = true) :
    managerSync acct (.ok (convs, msgs)) s = saveMessages (saveConversations s convs).2 msgs := by
  rw [managerSync.eq_def, hread]
  rfl

theorem convIdIn_upsert (table : List ConvRow) (r : ConvRow) (i : String)
    (h : convIdIn table i = true) : convIdIn (upsertConvRow table r) i = true := by
  simp only [convIdIn, upsertConvRow, List.any_append, List.any_eq_true, Bool.or_eq_true,
    List.mem_filter, decide_eq_true_eq] at h ⊢
  obtain ⟨x, hx, hxi⟩ := h
  by_cases hid : x.id = r.id
  · right
    exact ⟨r, List.mem_singleton_self r, by rw [← hid, hxi]⟩
  · left
    exact ⟨x, ⟨hx, by simpa using hid⟩, hxi⟩

theorem convIdIn_saveConversations (cs : List Conversation) :
    ∀ table i, convIdIn table i = true →
    convIdIn (cs.foldl (fun t c => upsertConvRow t (convToRow c)) table) i = true := by
  induction cs with
  | nil =>
    intro table i h
    exact h
  | cons c cs ih =>
    intro table i h
    rw [List.foldl_cons]
    exact ih (upsertConvRow table (convToRow c)) i (convIdIn_upsert table (convToRow c) i h)

theorem msgIdIn_saveMessages (s : DBState) (ms : List Message) (i : String)
    (h : msgIdIn s.messages i = true) :
    msgIdIn (saveMessages s ms).2.messages i = true := by
  cases hloop : saveMessagesLoop s.conversations s.messages ms with
  | error e =>
    rw [saveMessages_eq_error s ms e hloop]
    exact h
  | ok t =>
    rw [saveMessages_eq_ok s ms t hloop]
    exact saveMessagesLoop_mono s.conversations ms s.messages t i hloop h

/-- C1: saving a batch of messages twice leaves the `messages` table
exactly as a single save does; in particular every
`GetMessagesForConversation` query returns the same rows (same count and
content) after the second call as after the first. -/
theorem claim_C1_saveMessages_idempotent (s : DBState) (ms : List Message) :
    (saveMessages (saveMessages s ms).2 ms).2 = (saveMessages s ms).2 ∧
    ∀ conversationUID,
      getMessagesForConversation (saveMessages (saveMessages s ms).2 ms).2 conversationUID =
        getMessagesForConversation (saveMessages s ms).2 conversationUID := by
  refine ⟨saveMessages_state_idem s ms, fun conversationUID => ?_⟩
  rw [saveMessages_state_idem s ms]

/-- C10: in a single `SaveMessages` batch with two messages sharing one
id, the later occurrence is silently skipped: the batch behaves exactly
like the batch without it (first-write-wins), the call succeeds whenever
the first occurrence is insertable (or its id already stored), and when
the first occurrence is fresh and valid it is the row that is stored. -/
theorem claim_C10_batch_first_write_wins (s : DBState) (m1 m2 : Message)
    (h : m1.ID = m2.ID) :
    saveMessages s [m1, m2] = saveMessages s [m1] ∧
    ((msgIdIn s.messages m1.ID = true ∨ convIdIn s.conversations m1.ConversationUID = true) →
      (saveMessages s [m1, m2]).1 = none) ∧
    (msgIdIn s.messages m1.ID = false → convIdIn s.conversations m1.ConversationUID = true →
      (saveMessages s [m1, m2]).2.messages = s.messages ++ [m1]) := by
  by_cases h1 : msgIdIn s.messages m1.ID = true
  · have hloop : saveMessagesLoop s.conversations s.messages [m1, m2] = .ok s.messages := by
      rw [saveMessagesLoop, if_pos h1, saveMessagesLoop, if_pos (h ▸ h1), saveMessagesLoop]
    have hloop1 : saveMessagesLoop s.conversations s.messages [m1] = .ok s.messages := by
      rw [saveMessagesLoop, if_pos h1, saveMessagesLoop]
    refine ⟨?_, ?_, ?_⟩
    · rw [saveMessages_eq_ok s _ _ hloop, saveMessages_eq_ok s _ _ hloop1]
    · intro _
      rw [saveMessages_eq_ok s _ _ hloop]
    · intro hfresh _
      rw [h1] at hfresh
      cases hfresh
  · have h1f : msgIdIn s.messages m1.ID = false := by simpa using h1
    by_cases h2 : convIdIn s.conversations m1.ConversationUID = true
    · have hskip : msgIdIn (s.messages ++ [m1]) m2.ID = true := h ▸ msgIdIn_append_right s.messages m1
      have hloop : saveMessagesLoop s.conversations s.messages [m1, m2] =
          .ok (s.messages ++ [m1]) := by
        rw [saveMessagesLoop, if_neg h1, if_pos h2, saveMessagesLoop, if_pos hskip,
          saveMessagesLoop]
      have hloop1 : saveMessagesLoop s.conversations s.messages [m1] =
          .ok (s.messages ++ [m1]) := by
        rw [saveMessagesLoop, if_neg h1, if_pos h2, saveMessagesLoop]
      refine ⟨?_, ?_, ?_⟩
      · rw [saveMessages_eq_ok s _ _ hloop, saveMessages_eq_ok s _ _ hloop1]
      · intro _
        rw [saveMessages_eq_ok s _ _ hloop]
      · intro _ _
        rw [saveMessages_eq_ok s _ _ hloop]
    · have hloop : saveMessagesLoop s.conversations s.messages [m1, m2] =
          .error ("failed to insert message " ++ m1.ID) := by
        rw [saveMessagesLoop, if_neg h1, if_neg h2]
      have hloop1 : saveMessagesLoop s.conversations s.messages [m1] =
          .error ("failed to insert message " ++ m1.ID) := by
        rw [saveMessagesLoop, if_neg h1, if_neg h2]
      refine ⟨?_, ?_, ?_⟩
      · rw [saveMessages_eq_error s _ _ hloop, saveMessages_eq_error s _ _ hloop1]
      · intro hor
        rcases hor with hin | hcv
        · exact absurd hin h1
        · exact absurd hcv h2
      · intro _ hcv
        exact absurd hcv h2

/-- C10 witness. -/
theorem claim_C10_batch_first_write_wins_witness :
    saveMessages dbEmpty [wMsgA, wMsgB] = saveMessages dbEmpty [wMsgA] :=
  (claim_C10_batch_first_write_wins dbEmpty wMsgA wMsgB rfl).1

/-- C5: permission checks gate both manager operations and fail fast:
with `read=false`, `Sync` fails with the permission error and returns the
store unchanged, for every possible provider outcome (so the provider's
`Sync` is never consulted); with `write=false`, `Send` fails with the
permission error for every possible provider behaviour (so the
provider's `Send` is never consulted). -/
theorem claim_C5_permission_gating (acct : AccountConfig) :
    (acct.Read = false → ∀ providerResult s,
      managerSync acct providerResult s = (some ("account does not have read permission"), s)) ∧
    (acct.Write = false → ∀ providerSend chatID text,
      managerSend acct providerSend chatID text =
        Except.error ("account does not have write permission")) := by
  constructor
  · intro hr providerResult s
    exact managerSync_noread acct providerResult s hr
  · intro hw providerSend chatID text
    rw [managerSend, hw]
    rfl

/-- C5 witness. -/
theorem claim_C5_permission_gating_witness :
    managerSync wAcctNone (.ok ([], [])) dbEmpty =
      (some ("account does not have read permission"), dbEmpty) ∧
    managerSend wAcctNone (fun _ _ => .ok ()) "c1" "hello" =
      Except.error ("account does not have write permission") :=
  ⟨(claim_C5_permission_gating wAcctNone).1 rfl (.ok ([], [])) dbEmpty,
    (claim_C5_permission_gating wAcctNone).2 rfl (fun _ _ => .ok ()) "c1" "hello"⟩

/-- C6: a sync with a successful fetch writes conversations before
messages with per-table atomicity only: the conversation batch cannot
fail on any row (its error component is always `none`, so the guard that
would skip the message write is never taken with data-dependent cause),
the conversation batch is committed no matter how the message batch
fares, a failed message batch (any single row failure aborts the whole
batch) leaves the `messages` table exactly as before the sync, and a
fully successful sync equals writing conversations first and messages
second. -/
theorem claim_C6_write_order_per_table_atomicity (acct : AccountConfig)
    (convs : List Conversation) (msgs : List Message) (s : DBState)
    (hread : acct.Read = true) :
    (saveConversations s convs).1 = none ∧
    (managerSync acct (.ok (convs, msgs)) s).2.conversations =
      (saveConversations s convs).2.conversations ∧
    ((managerSync acct (.ok (convs, msgs)) s).1.isSome = true →
      (managerSync acct (.ok (convs, msgs)) s).2.messages = s.messages) ∧
    ((managerSync acct (.ok (convs, msgs)) s).1 = none →
      managerSync acct (.ok (convs, msgs)) s =
        saveMessages (saveConversations s convs).2 msgs) := by
  have key := managerSync_ok acct convs msgs s hread
  refine ⟨rfl, ?_, ?_, ?_⟩
  · rw [key, saveMessages_conversations]
  · intro hsome
    rw [key] at hsome ⊢
    cases hloop : saveMessagesLoop (saveConversations s convs).2.conversations
        (saveConversations s convs).2.messages msgs with
    | error e =>
      rw [saveMessages_eq_error _ _ _ hloop]
      exact saveConversations_messages s convs
    | ok t =>
      rw [saveMessages_eq_ok _ _ _ hloop] at hsome
      simp at hsome
  · intro _
    exact key

/-- C6 witness: a failing message batch (orphan row) after a committed
conversation batch. -/
theorem claim_C6_write_order_per_table_atomicity_witness :
    (managerSync wAcctRW (.ok ([wConv], [wOrphan])) dbEmpty).2.messages = dbEmpty.messages :=
  (claim_C6_write_order_per_table_atomicity wAcctRW [wConv] [wOrphan] dbEmpty rfl).2.2.1
    (by decide)

/-- C9: the engine never deletes stored rows: every conversation id and
every message id present before a `Sync` is still present afterwards,
whatever the provider returned (including a full-refresh response that
omits the stored rows). -/
theorem claim_C9_sync_never_deletes (acct : AccountConfig)
    (providerResult : Except String (List Conversation × List Message)) (s : DBState) :
    (∀ i, convIdIn s.conversations i = true →
      convIdIn (managerSync acct providerResult s).2.conversations i = true) ∧
    (∀ i, msgIdIn s.messages i = true →
      msgIdIn (managerSync acct providerResult s).2.messages i = true) := by
  cases hread : acct.Read with
  | false =>
    rw [managerSync_noread acct providerResult s hread]
    exact ⟨fun i h => h, fun i h => h⟩
  | true =>
    cases providerResult with
    | error e =>
      rw [managerSync_err acct e s hread]
      exact ⟨fun i h => h, fun i h => h⟩
    | ok pair =>
      obtain ⟨convs, msgs⟩ := pair
      rw [managerSync_ok acct convs msgs s hread]
      constructor
      · intro i h
        rw [saveMessages_conversations]
        exact convIdIn_saveConversations convs s.conversations i h
      · intro i h
        exact msgIdIn_saveMessages (saveConversations s convs).2 msgs i h

/-- C9 witness: a sync whose full-refresh response omits the stored rows
still leaves their ids present. -/
theorem claim_C9_sync_never_deletes_witness :
    convIdIn (managerSync wAcctRW (.ok ([], [])) wState).2.conversations "c1" = true ∧
    msgIdIn (managerSync wAcctRW (.ok ([], [])) wState).2.messages "m1" = true :=
  ⟨(claim_C9_sync_never_deletes wAcctRW (.ok ([], [])) wState).1 "c1" (by decide),
    (claim_C9_sync_never_deletes wAcctRW (.ok ([], [])) wState).2 "m1" (by decide)⟩

theorem rowToConv_convToRow (c : Conversation) : rowToConv (convToRow c) = .ok c := by
  have hdec : decodeStrList (convToRow c).participant_uids = some c.ParticipantUIDs :=
    decodeStrList_encodeStrList c.ParticipantUIDs
  rw [rowToConv.eq_def, hdec]
  rfl

theorem getConversation_found (s : DBState) (uid : String) (r : ConvRow)
    (h : s.conversations.find? (fun x => x.id = uid) = some r) :
    getConversation s uid = (rowToConv r).map some := by
  rw [getConversation.eq_def, h]

theorem find?_filter_append (r : ConvRow) : ∀ l : List ConvRow,
    (l.filter (fun x => x.id ≠ r.id) ++ [r]).find? (fun x => x.id = r.id) = some r := by
  intro l
  induction l with
  | nil => simp [List.find?]
  | cons x xs ih =>
    rw [List.filter_cons]
    by_cases h : x.id = r.id
    · rw [if_neg (by simpa using h)]
      exact ih
    · rw [if_pos (by simpa using h)]
      rw [List.cons_append, List.find?_cons_of_neg _ (by simpa using h)]
      exact ih

theorem find?_upsertConvRow (table : List ConvRow) (r : ConvRow) :
    (upsertConvRow table r).find? (fun x => x.id = r.id) = some r := by
  rw [upsertConvRow]
  exact find?_filter_append r table

theorem convIdIn_upsert_self (table : List ConvRow) (r : ConvRow) :
    convIdIn (upsertConvRow table r) r.id = true := by
  simp [convIdIn, upsertConvRow]

/-- C2: saving a conversation whose id is already stored replaces every
field of the stored row: `GetConversation` on that id afterwards returns
exactly the newly saved conversation (all fields, participants included),
nothing of the old row surviving. -/
theorem claim_C2_conversation_overwrite (s : DBState) (c cNew : Conversation)
    (_hstored : convToRow c ∈ s.conversations) (hid : cNew.ID = c.ID) :
    getConversation (saveConversations s [cNew]).2 c.ID = .ok (some cNew) := by
  have hfind : (saveConversations s [cNew]).2.conversations.find?
      (fun r => r.id = c.ID) = some (convToRow cNew) := by
    rw [← hid]
    exact find?_upsertConvRow s.conversations (convToRow cNew)
  rw [getConversation_found _ _ _ hfind, rowToConv_convToRow]
  rfl

/-- C2 witness. -/
theorem claim_C2_conversation_overwrite_witness :
    getConversation (saveConversations (saveConversations dbEmpty [wConv]).2 [wConv2]).2 "c1" =
      .ok (some wConv2) :=
  claim_C2_conversation_overwrite (saveConversations dbEmpty [wConv]).2 wConv wConv2
    (by decide) rfl

theorem mem_insertTsDesc (a m : Message) (l : List Message) :
    a ∈ insertTsDesc m l ↔ a = m ∨ a ∈ l := by
  induction l with
  | nil => simp [insertTsDesc]
  | cons x xs ih =>
    rw [insertTsDesc]
    by_cases h : m.Timestamp ≤ x.Timestamp
    · rw [if_pos h]
      rw [List.mem_cons, ih, List.mem_cons]
      tauto
    · rw [if_neg h]
      rw [List.mem_cons, List.mem_cons]

theorem mem_foldl_insertTsDesc (a : Message) : ∀ (l acc : List Message),
    a ∈ l.foldl (fun acc m => insertTsDesc m acc) acc ↔ a ∈ acc ∨ a ∈ l := by
  intro l
  induction l with
  | nil =>
    intro acc
    simp
  | cons x xs ih =>
    intro acc
    rw [List.foldl_cons, ih (insertTsDesc x acc), mem_insertTsDesc, List.mem_cons]
    tauto

theorem mem_sortTsDesc (a : Message) (l : List Message) : a ∈ sortTsDesc l ↔ a ∈ l := by
  rw [sortTsDesc, mem_foldl_insertTsDesc]
  simp

/-- C7: structured fields round-trip through save and load: a
conversation saved and reloaded yields exactly its participant
identifier list, and a freshly saved message appears in
`GetMessagesForConversation` as-is, attachments (all fields) included. -/
theorem claim_C7_structured_roundtrip (s : DBState) (c : Conversation) (m : Message)
    (hcid : m.ConversationUID = c.ID) (hfresh : msgIdIn s.messages m.ID = false) :
    getConversation (saveMessages (saveConversations s [c]).2 [m]).2 c.ID = .ok (some c) ∧
    m ∈ getMessagesForConversation (saveMessages (saveConversations s [c]).2 [m]).2
      m.ConversationUID := by
  have hconv : convIdIn (saveConversations s [c]).2.conversations m.ConversationUID = true := by
    rw [hcid]
    exact convIdIn_upsert_self s.conversations (convToRow c)
  have hfresh2 : msgIdIn (saveConversations s [c]).2.messages m.ID = false := hfresh
  have hloop : saveMessagesLoop (saveConversations s [c]).2.conversations
      (saveConversations s [c]).2.messages [m] =
      .ok ((saveConversations s [c]).2.messages ++ [m]) := by
    rw [saveMessagesLoop, if_neg (by simp [hfresh2]), if_pos hconv, saveMessagesLoop]
  constructor
  · have hfind : (saveMessages (saveConversations s [c]).2 [m]).2.conversations.find?
        (fun r => r.id = c.ID) = some (convToRow c) := by
      rw [saveMessages_conversations]
      exact find?_upsertConvRow s.conversations (convToRow c)
    rw [getConversation_found _ _ _ hfind, rowToConv_convToRow]
    rfl
  · rw [saveMessages_eq_ok _ _ _ hloop]
    rw [getMessagesForConversation, mem_sortTsDesc]
    simp [List.mem_filter]

/-- C7 witness. -/
theorem claim_C7_structured_roundtrip_witness :
    getConversation (saveMessages (saveConversations dbEmpty [wConv]).2 [wMsgAtt]).2 "c1" =
      .ok (some wConv) ∧
    wMsgAtt ∈ getMessagesForConversation
      (saveMessages (saveConversations dbEmpty [wConv]).2 [wMsgAtt]).2 "c1" :=
  claim_C7_structured_roundtrip dbEmpty wConv wMsgAtt rfl rfl

/-- C3 counterexample: `PRAGMA foreign_keys = ON` plus the declared
`conversation_uid` foreign key make `SaveMessages` of an orphan message
fail (`INSERT OR IGNORE` does not suppress foreign-key violations), and
nothing is stored — refuting the claim that the store does not require
the referenced conversation row. -/
theorem claim_C3_counterexample :
    ¬ ((saveMessages dbEmpty [wOrphan]).1 = none ∧
      wOrphan ∈ (saveMessages dbEmpty [wOrphan]).2.messages) := by
  decide

/-- C3 (amended): the store requires the referenced conversation row —
saving a message whose id is not yet stored and whose `conversation_uid`
matches no conversation row fails with the insert error and leaves the
store unchanged (the whole transaction rolls back). -/
theorem claim_C3_fk_enforced (s : DBState) (m : Message)
    (hfresh : msgIdIn s.messages m.ID = false)
    (hno : convIdIn s.conversations m.ConversationUID = false) :
    saveMessages s [m] = (some ("failed to insert message " ++ m.ID), s) := by
  have hloop : saveMessagesLoop s.conversations s.messages [m] =
      .error ("failed to insert message " ++ m.ID) := by
    rw [saveMessagesLoop, if_neg (by simp [hfresh]), if_neg (by simp [hno])]
  exact saveMessages_eq_error s [m] _ hloop

/-- C3 witness. -/
theorem claim_C3_fk_enforced_witness :
    saveMessages dbEmpty [wOrphan] =
      (some ("failed to insert message " ++ wOrphan.ID), dbEmpty) :=
  claim_C3_fk_enforced dbEmpty wOrphan rfl rfl

/-! ### Maximum characterization for C4 -/

theorem maxList_eq_none (l : List Int) : maxList l = none ↔ l = [] := by
  cases l with
  | nil => simp [maxList]
  | cons x xs =>
    rw [maxList]
    cases maxList xs <;> simp

theorem maxList_mem : ∀ (l : List Int) (t : Int), maxList l = some t → t ∈ l := by
  intro l
  induction l with
  | nil =>
    intro t h
    cases h
  | cons x xs ih =>
    intro t h
    rw [maxList] at h
    cases hxs : maxList xs with
    | none =>
      rw [hxs] at h
      cases h
      exact List.mem_cons_self x xs
    | some y =>
      rw [hxs] at h
      cases h
      rcases max_choice x y with hm | hm
      · rw [hm]
        exact List.mem_cons_self x xs
      · rw [hm]
        exact List.mem_cons_of_mem x (ih y hxs)

theorem maxList_le : ∀ (l : List Int) (t : Int), maxList l = some t → ∀ u ∈ l, u ≤ t := by
  intro l
  induction l with
  | nil =>
    intro t h
    cases h
  | cons x xs ih =>
    intro t h u hu
    rw [maxList] at h
    cases hxs : maxList xs with
    | none =>
      rw [hxs] at h
      cases h
      rw [maxList_eq_none] at hxs
      rcases List.mem_cons.mp hu with rfl | hu
      · exact le_refl u
      · rw [hxs] at hu
        cases hu
    | some y =>
      rw [hxs] at h
      cases h
      rcases List.mem_cons.mp hu with rfl | hu
      · exact le_max_left u y
      · exact le_trans (ih y hxs u hu) (le_max_right x y)

theorem maxList_eq_of (l : List Int) (t : Int) (hmem : t ∈ l) (hle : ∀ u ∈ l, u ≤ t) :
    maxList l = some t := by
  cases hml : maxList l with
  | none =>
    rw [maxList_eq_none] at hml
    rw [hml] at hmem
    cases hmem
  | some v =>
    have h1 : t ≤ v := maxList_le l v hml t hmem
    have h2 : v ≤ t := hle v (maxList_mem l v hml)
    rw [le_antisymm h1 h2]

/-- C4 counterexample: a contact whose only stored message carries
timestamp `0` gets `none` from `GetLastContactDate`, although messages
exist — the zero-timestamp case is not distinguished from the no-rows
case. -/
theorem claim_C4_counterexample :
    getLastContactDate (saveMessages (saveConversations dbEmpty [wConv]).2
        [{ wMsgA with Timestamp := 0 }]).2 "u1" = none ∧
    contactTimestamps (saveMessages (saveConversations dbEmpty [wConv]).2
        [{ wMsgA with Timestamp := 0 }]).2 "u1" ≠ [] := by
  decide

/-- C4 (amended): `GetLastContactDate` returns the maximum timestamp of
the contact's messages whenever that maximum is nonzero, and returns
`none` exactly when the contact has no messages **or** the maximum
timestamp equals zero (the code's `timestamp == 0` branch conflates the
two). -/
theorem claim_C4_last_contact_date (s : DBState) (contactUID : String) :
    (getLastContactDate s contactUID = none ↔
      contactTimestamps s contactUID = [] ∨
        (0 ∈ contactTimestamps s contactUID ∧
          ∀ u ∈ contactTimestamps s contactUID, u ≤ 0)) ∧
    (∀ t, getLastContactDate s contactUID = some t →
      t ≠ 0 ∧ t ∈ contactTimestamps s contactUID ∧
        ∀ u ∈ contactTimestamps s contactUID, u ≤ t) := by
  cases hml : maxList (contactTimestamps s contactUID) with
  | none =>
    have hnil := (maxList_eq_none _).mp hml
    have hval : getLastContactDate s contactUID = none := by
      rw [getLastContactDate.eq_def, hml]
    constructor
    · rw [hval]
      simp [hnil]
    · intro t ht
      rw [hval] at ht
      cases ht
  | some v =>
    have hmem := maxList_mem _ v hml
    have hle := maxList_le _ v hml
    by_cases hz : v = 0
    · have hval : getLastContactDate s contactUID = none := by
        rw [getLastContactDate.eq_def, hml]
        simp [hz]
      subst hz
      constructor
      · rw [hval]
        simp only [true_iff]
        exact Or.inr ⟨hmem, hle⟩
      · intro t ht
        rw [hval] at ht
        cases ht
    · have hval : getLastContactDate s contactUID = some v := by
        rw [getLastContactDate.eq_def, hml]
        simp [hz]
      constructor
      · rw [hval]
        simp only [reduceCtorEq, false_iff]
        rintro (hnil | ⟨hz0, hle0⟩)
        · rw [hnil] at hmem
          cases hmem
        · exact hz (le_antisymm (hle0 v hmem) (hle 0 hz0))
      · intro t ht
        rw [hval] at ht
        cases ht
        exact ⟨hz, hmem, hle⟩

/-- C4 witness. -/
theorem claim_C4_last_contact_date_witness :
    (1 : Int) ≠ 0 ∧ (1 : Int) ∈ contactTimestamps wState "u1" ∧
      ∀ u ∈ contactTimestamps wState "u1", u ≤ 1 :=
  (claim_C4_last_contact_date wState "u1").2 1 (by decide)

theorem scanConversations_ok : ∀ (rows : List ConvRow) (cs : List Conversation),
    scanConversations rows = .ok cs →
    (∀ c ∈ cs, ∃ row ∈ rows, rowToConv row = .ok c) ∧
    (∀ row ∈ rows, ∃ c ∈ cs, rowToConv row = .ok c) := by
  intro rows
  induction rows with
  | nil =>
    intro cs h
    rw [scanConversations] at h
    cases h
    constructor
    · intro c hc
      cases hc
    · intro row hrow
      cases hrow
  | cons r rs ih =>
    intro cs h
    rw [scanConversations] at h
    cases hr : rowToConv r with
    | error e =>
      rw [hr] at h
      cases h
    | ok c0 =>
      rw [hr] at h
      cases hrs : scanConversations rs with
      | error e =>
        rw [hrs] at h
        cases h
      | ok cs0 =>
        rw [hrs] at h
        cases h
        obtain ⟨ih1, ih2⟩ := ih cs0 hrs
        constructor
        · intro c hc
          rcases List.mem_cons.mp hc with rfl | hc
          · exact ⟨r, List.mem_cons_self r rs, hr⟩
          · obtain ⟨row, hrow, hconv⟩ := ih1 c hc
            exact ⟨row, List.mem_cons_of_mem r hrow, hconv⟩
        · intro row hrow
          rcases List.mem_cons.mp hrow with rfl | hrow
          · exact ⟨c0, List.mem_cons_self c0 cs0, hr⟩
          · obtain ⟨c, hc, hconv⟩ := ih2 row hrow
            exact ⟨c, List.mem_cons_of_mem c0 hc, hconv⟩

/-- C8 counterexample: querying for `"ALICE"` returns the conversation
whose serialized participant list is `["alice"]`, although that text does
not contain `"ALICE"` as a substring — SQLite's `LIKE` is
ASCII-case-insensitive, so the returned set is not exactly the
substring-containing one. -/
theorem claim_C8_counterexample :
    getConversationsForContact (saveConversations dbEmpty [wConvAlice]).2 "ALICE" =
      .ok [wConvAlice] ∧
    containsSubstr (convToRow wConvAlice).participant_uids "ALICE" = false := by
  decide

/-- C8 (amended): `GetConversationsForContact` returns exactly the
conversations whose serialized participant list matches the SQL pattern
`%contactUID%` under `LIKE` semantics (ASCII-case-insensitive, `%`/`_`
in the identifier acting as wildcards): every returned conversation
comes from a LIKE-matching row, every LIKE-matching row is returned, and
in particular every conversation whose serialized participant list
literally contains the identifier is returned (the claimed best-effort
containment), with case-folded or wildcard matches as additional false
positives. -/
theorem claim_C8_contact_conversations (s : DBState) (contactUID : String)
    (cs : List Conversation)
    (h : getConversationsForContact s contactUID = .ok cs) :
    (∀ c ∈ cs, ∃ row ∈ s.conversations,
      likeContains row.participant_uids contactUID = true ∧ rowToConv row = .ok c) ∧
    (∀ row ∈ s.conversations, likeContains row.participant_uids contactUID = true →
      ∃ c ∈ cs, rowToConv row = .ok c) ∧
    (∀ row ∈ s.conversations, containsSubstr row.participant_uids contactUID = true →
      ∃ c ∈ cs, rowToConv row = .ok c) := by
  rw [getConversationsForContact] at h
  obtain ⟨h1, h2⟩ := scanConversations_ok _ cs h
  refine ⟨?_, ?_, ?_⟩
  · intro c hc
    obtain ⟨row, hrow, hconv⟩ := h1 c hc
    rw [List.mem_filter] at hrow
    exact ⟨row, hrow.1, hrow.2, hconv⟩
  · intro row hrow hlike
    exact h2 row (List.mem_filter.mpr ⟨hrow, hlike⟩)
  · intro row hrow hsub
    exact h2 row (List.mem_filter.mpr ⟨hrow, likeContains_of_containsSubstr _ _ hsub⟩)

/-- C8 witness. -/
theorem claim_C8_contact_conversations_witness :
    ∃ c ∈ [wConvAlice], rowToConv (convToRow wConvAlice) = .ok c :=
  (claim_C8_contact_conversations (saveConversations dbEmpty [wConvAlice]).2 "alice"
      [wConvAlice] (by decide)).2.2 (convToRow wConvAlice) (by decide) (by decide)
